import Mathlib

/-!
Shallow embedding of the DronCakes order/drone assignment and lifecycle
engine (`src/services/orderService.js`, `src/services/droneService.js`,
`src/utils/dataStore.js`).

The JavaScript engine keeps two module-level mutable arrays, `drones` and
`orders`, and mutates objects in place.  We model the pair of arrays (plus
a logical clock supplying the `new Date()` timestamps) as an explicit
`EngineState`, and each in-place mutation as a function producing a new
state.  Fallible operations (the JS functions `throw`) return
`Except String`, carrying the thrown message.  The JS timer callbacks
(`setTimeout` in `createOrder`) simply invoke `updateOrderStatus` with
`"en vuelo"` / `"entregado"` and swallow errors, so a scheduled firing is
modelled as an ordinary `Op.update` occurring later in an operation
sequence; `run` folds a sequence of operations over a state, with a
failing operation leaving the state unchanged (the JS functions throw
before performing any mutation, and timer callbacks catch the error).
-/

namespace DronCakes

/-- A delivery drone, as stored in `dataStore.js`:
`{ id, name, available }`. -/
structure Drone where
  id : Nat
  name : String
  available : Bool
deriving DecidableEq

/-- An order record as constructed by `createOrder` in `orderService.js`.
`createdAt` / `estimatedDelivery` / `deliveredAt` are ISO timestamps in JS;
we model instants as `Nat` milliseconds.  `deliveredAt` is absent
(`none`) until the delivering branch of `updateOrderStatus` assigns it. -/
structure Order where
  id : Nat
  customer : String
  flavor : String
  drone : String
  droneId : Nat
  status : String
  createdAt : Nat
  estimatedDelivery : Nat
  deliveredAt : Option Nat
deriving DecidableEq

/-- The mutable module state of `dataStore.js` (the `drones` and `orders`
arrays) together with the current clock reading. -/
structure EngineState where
  drones : List Drone
  orders : List Order
  now : Nat
deriving DecidableEq

/-- `drones.find((d) => d.available)` — first available drone in registry
order. -/
def findAvailable (ds : List Drone) : Option Drone :=
  ds.find? (fun d => d.available)

/-- The in-place mutation `availableDrone.available = false`: the first
available drone in the array (the one `find` returned) has its flag
cleared; every other element is untouched. -/
def markFirstAvailableBusy : List Drone → List Drone
  | [] => []
  | d :: ds =>
    if d.available then { d with available := false } :: ds
    else d :: markFirstAvailableBusy ds

/-- `createOrder(customer, flavor)` from `orderService.js`.  Finds an
available drone (throwing `"No hay drones disponibles"` if none), builds
the new order with `id = orders.length + 1`, status `"preparando"`,
`createdAt = now` and `estimatedDelivery = now + 15 minutes`, marks the
drone busy and pushes the order.  The two `setTimeout` transitions it
schedules are modelled as later `Op.update` operations.  `newOrderOf` is
the record literal `createOrder` builds once drone `d` was found. -/
def newOrderOf (s : EngineState) (customer flavor : String) (d : Drone) : Order :=
  { id := s.orders.length + 1
    customer := customer
    flavor := flavor
    drone := d.name
    droneId := d.id
    status := "preparando"
    createdAt := s.now
    estimatedDelivery := s.now + 15 * 60 * 1000
    deliveredAt := none }

def createOrder (s : EngineState) (customer flavor : String) :
    Except String (Order × EngineState) :=
  match findAvailable s.drones with
  | none => .error "No hay drones disponibles"
  | some d =>
    .ok (newOrderOf s customer flavor d,
      { s with
        drones := markFirstAvailableBusy s.drones
        orders := s.orders ++ [newOrderOf s customer flavor d] })

/-- `getAllOrders()` — returns the live order collection. -/
def getAllOrders (s : EngineState) : List Order := s.orders

/-- `orders.find(o => o.id === orderId)`. -/
def findOrder (os : List Order) (orderId : Nat) : Option Order :=
  os.find? (fun o => o.id == orderId)

/-- In-place mutation of the first order whose `id` matches: that element
is replaced, the rest of the array is untouched. -/
def replaceFirstOrder : List Order → Nat → Order → List Order
  | [], _, _ => []
  | o :: os, i, o' =>
    if o.id == i then o' :: os else o :: replaceFirstOrder os i o'

/-- The in-place mutation `drone.available = true` guarded by
`if (drone)`: the first drone whose `id` matches is freed; if none
matches, the array is unchanged. -/
def freeDrone : List Drone → Nat → List Drone
  | [], _ => []
  | d :: ds, i =>
    if d.id == i then { d with available := true } :: ds
    else d :: freeDrone ds i

/-- `updateOrderStatus(orderId, newStatus)` from `orderService.js`.
Throws `"Orden no encontrada"` when no order matches; otherwise sets
`order.status = newStatus` unconditionally (the code validates neither
the status string nor the direction of the transition).  When the new
status is `"entregado"` it looks the bound drone up; only if the drone is
found does it set `drone.available = true` and stamp
`order.deliveredAt`.  `statusUpdatedOrder` is the mutated order record. -/
def statusUpdatedOrder (s : EngineState) (o : Order) (newStatus : String) : Order :=
  { o with
    status := newStatus
    deliveredAt :=
      if newStatus == "entregado" &&
          (s.drones.find? (fun d => d.id == o.droneId)).isSome
      then some s.now else o.deliveredAt }

def updateOrderStatus (s : EngineState) (orderId : Nat) (newStatus : String) :
    Except String (Order × EngineState) :=
  match findOrder s.orders orderId with
  | none => .error "Orden no encontrada"
  | some o =>
    .ok (statusUpdatedOrder s o newStatus,
      { s with
        orders := replaceFirstOrder s.orders orderId (statusUpdatedOrder s o newStatus)
        drones :=
          if newStatus == "entregado" then freeDrone s.drones o.droneId
          else s.drones })

/-- `completeOrder(orderId)` from `orderService.js`: literally
`updateOrderStatus(orderId, "entregado")`. -/
def completeOrder (s : EngineState) (orderId : Nat) :
    Except String (Order × EngineState) :=
  updateOrderStatus s orderId "entregado"

/-- The seed drone registry from `dataStore.js`. -/
def seedDrones : List Drone :=
  [ { id := 1, name := "Droncito 1", available := true }
  , { id := 2, name := "PastelExpress", available := true }
  , { id := 3, name := "SweetFly", available := false } ]

/-- The module state at process start: seed drones, no orders. -/
def seedState : EngineState :=
  { drones := seedDrones, orders := [], now := 0 }

/-- The operations a caller (or a firing timer callback) can perform on
the engine state.  `completeOrder i` is `update i "entregado"`. -/
inductive Op where
  | create (customer flavor : String)
  | update (orderId : Nat) (newStatus : String)
deriving DecidableEq

/-- One engine operation.  A thrown error leaves the state unchanged
(both JS functions throw before mutating, and the controller / timer
callbacks catch the exception). -/
def step (s : EngineState) : Op → EngineState
  | .create c f =>
    match createOrder s c f with
    | .ok (_, s') => s'
    | .error _ => s
  | .update i st =>
    match updateOrderStatus s i st with
    | .ok (_, s') => s'
    | .error _ => s

/-- Run a sequence of operations. -/
def run (s : EngineState) : List Op → EngineState
  | [] => s
  | op :: ops => run (step s op) ops

/-- An order is non-terminal while its status is not `"entregado"`. -/
def isNonTerminal (o : Order) : Bool := o.status != "entregado"

/-- Every non-terminal order is bound to a registered drone whose
availability flag is false. -/
def boundBusy (s : EngineState) : Prop :=
  ∀ o ∈ s.orders, isNonTerminal o = true →
    ∃ d ∈ s.drones, d.id = o.droneId ∧ d.available = false

/-- The number of simultaneously non-terminal orders never exceeds the
number of drones. -/
def capacityOK (s : EngineState) : Prop :=
  (s.orders.filter isNonTerminal).length ≤ s.drones.length

/-- The invariant claimed by the spec for the engine state. -/
def engineInv (s : EngineState) : Prop := boundBusy s ∧ capacityOK s

/-- The drone registry carries pairwise distinct identifiers. -/
def dronesNodup (s : EngineState) : Prop :=
  (s.drones.map (fun d => d.id)).Nodup

/-- Distinct non-terminal orders are bound to distinct drones. -/
def bindingNodup (s : EngineState) : Prop :=
  ((s.orders.filter isNonTerminal).map (fun o => o.droneId)).Nodup

/-- Inductive strengthening of `engineInv`. -/
def strongInv (s : EngineState) : Prop :=
  boundBusy s ∧ dronesNodup s ∧ bindingNodup s

instance (s : EngineState) : Decidable (boundBusy s) :=
  inferInstanceAs (Decidable (∀ o ∈ s.orders, isNonTerminal o = true →
    ∃ d ∈ s.drones, d.id = o.droneId ∧ d.available = false))

instance (s : EngineState) : Decidable (capacityOK s) :=
  inferInstanceAs (Decidable (_ ≤ _))

instance (s : EngineState) : Decidable (engineInv s) :=
  inferInstanceAs (Decidable (_ ∧ _))

instance (s : EngineState) : Decidable (dronesNodup s) :=
  inferInstanceAs (Decidable (List.Nodup _))

instance (s : EngineState) : Decidable (bindingNodup s) :=
  inferInstanceAs (Decidable (List.Nodup _))

instance (s : EngineState) : Decidable (strongInv s) :=
  inferInstanceAs (Decidable (_ ∧ _ ∧ _))

/-- Guard on a single operation: a status update may only target orders
that are not already delivered.  (The code itself never enforces this;
it is the side condition under which the spec's invariant survives.) -/
def okOpB (s : EngineState) : Op → Bool
  | .create _ _ => true
  | .update i _ =>
    s.orders.all (fun o => !(o.id == i) || !(o.status == "entregado"))

/-- Guard on a whole operation sequence, checked step by step. -/
def okRunB (s : EngineState) : List Op → Bool
  | [] => true
  | op :: ops => okOpB s op && okRunB (step s op) ops

/-! ### Helper lemmas about the in-place array mutations -/

theorem find?_decomp {α : Type _} (p : α → Bool) (l : List α) (a : α)
    (h : l.find? p = some a) :
    ∃ l₁ l₂, l = l₁ ++ a :: l₂ ∧ ∀ x ∈ l₁, p x = false := by
  induction l with
  | nil => simp at h
  | cons b l ih =>
    by_cases hb : p b = true
    · rw [List.find?_cons_of_pos _ hb] at h
      obtain rfl : b = a := by injection h
      exact ⟨[], l, rfl, by simp⟩
    · rw [List.find?_cons_of_neg _ (by simpa using hb)] at h
      obtain ⟨l₁, l₂, rfl, hl₁⟩ := ih h
      refine ⟨b :: l₁, l₂, rfl, ?_⟩
      intro x hx
      rcases List.mem_cons.mp hx with rfl | hx
      · simpa using hb
      · exact hl₁ x hx

theorem replaceFirstOrder_append (l₁ l₂ : List Order) (o₀ o' : Order) (i : Nat)
    (h₁ : ∀ x ∈ l₁, (x.id == i) = false) (h₀ : (o₀.id == i) = true) :
    replaceFirstOrder (l₁ ++ o₀ :: l₂) i o' = l₁ ++ o' :: l₂ := by
  induction l₁ with
  | nil => simp [replaceFirstOrder, h₀]
  | cons x l₁ ih =>
    have hx := h₁ x (List.mem_cons_self x l₁)
    simp [replaceFirstOrder, hx,
      ih (fun y hy => h₁ y (List.mem_cons_of_mem x hy))]

theorem replaceFirstOrder_length (os : List Order) (i : Nat) (o' : Order) :
    (replaceFirstOrder os i o').length = os.length := by
  induction os with
  | nil => rfl
  | cons o os ih =>
    by_cases h : (o.id == i) = true <;> simp [replaceFirstOrder, h, ih]

theorem markFirstAvailableBusy_map_id (ds : List Drone) :
    (markFirstAvailableBusy ds).map (fun d => d.id) = ds.map (fun d => d.id) := by
  induction ds with
  | nil => rfl
  | cons d ds ih =>
    by_cases h : d.available = true <;> simp [markFirstAvailableBusy, h, ih]

theorem markFirstAvailableBusy_length (ds : List Drone) :
    (markFirstAvailableBusy ds).length = ds.length := by
  induction ds with
  | nil => rfl
  | cons d ds ih =>
    by_cases h : d.available = true <;> simp [markFirstAvailableBusy, h, ih]

theorem markFirstAvailableBusy_mem_busy {ds : List Drone} {d : Drone}
    (hmem : d ∈ ds) (hbusy : d.available = false) :
    d ∈ markFirstAvailableBusy ds := by
  induction ds with
  | nil => cases hmem
  | cons e ds ih =>
    by_cases he : e.available = true
    · rcases List.mem_cons.mp hmem with rfl | hmem
      · rw [he] at hbusy; cases hbusy
      · simp only [markFirstAvailableBusy, if_pos he]
        exact List.mem_cons_of_mem _ hmem
    · simp only [markFirstAvailableBusy, if_neg he]
      rcases List.mem_cons.mp hmem with rfl | hmem
      · exact List.mem_cons_self _ _
      · exact List.mem_cons_of_mem _ (ih hmem)

theorem markFirstAvailableBusy_found {ds : List Drone} {d : Drone}
    (h : findAvailable ds = some d) :
    { d with available := false } ∈ markFirstAvailableBusy ds := by
  induction ds with
  | nil => simp [findAvailable] at h
  | cons e ds ih =>
    by_cases he : e.available = true
    · have he' : e = d := by
        have := List.find?_cons_of_pos (p := fun d => d.available) ds he
        rw [findAvailable, this] at h
        injection h
      subst he'
      simp only [markFirstAvailableBusy, if_pos he]
      exact List.mem_cons_self _ _
    · have h' : findAvailable ds = some d := by
        have := List.find?_cons_of_neg (p := fun d => d.available) ds (by simpa using he)
        rw [findAvailable, this] at h
        exact h
      simp only [markFirstAvailableBusy, if_neg he]
      exact List.mem_cons_of_mem _ (ih h')

theorem freeDrone_map_id (ds : List Drone) (j : Nat) :
    (freeDrone ds j).map (fun d => d.id) = ds.map (fun d => d.id) := by
  induction ds with
  | nil => rfl
  | cons d ds ih =>
    by_cases h : (d.id == j) = true <;> simp [freeDrone, h, ih]

theorem freeDrone_length (ds : List Drone) (j : Nat) :
    (freeDrone ds j).length = ds.length := by
  induction ds with
  | nil => rfl
  | cons d ds ih =>
    by_cases h : (d.id == j) = true <;> simp [freeDrone, h, ih]

theorem freeDrone_mem_of_ne {ds : List Drone} {d : Drone} {j : Nat}
    (hmem : d ∈ ds) (hne : d.id ≠ j) :
    d ∈ freeDrone ds j := by
  induction ds with
  | nil => cases hmem
  | cons e ds ih =>
    by_cases he : (e.id == j) = true
    · rcases List.mem_cons.mp hmem with rfl | hmem
      · exact absurd (by simpa using he : d.id = j) hne
      · simp only [freeDrone, if_pos he]
        exact List.mem_cons_of_mem _ hmem
    · simp only [freeDrone, if_neg he]
      rcases List.mem_cons.mp hmem with rfl | hmem
      · exact List.mem_cons_self _ _
      · exact List.mem_cons_of_mem _ (ih hmem)

theorem freeDrone_mem_found {ds : List Drone} {j : Nat} {d : Drone}
    (h : ds.find? (fun d => d.id == j) = some d) :
    ∃ e ∈ freeDrone ds j, e.id = j ∧ e.available = true := by
  induction ds with
  | nil => simp at h
  | cons e ds ih =>
    by_cases he : (e.id == j) = true
    · refine ⟨{ e with available := true }, ?_, by simpa using he, rfl⟩
      simp only [freeDrone, if_pos he]
      exact List.mem_cons_self _ _
    · rw [List.find?_cons_of_neg _ (by simpa using he)] at h
      obtain ⟨e', he', hj, ha⟩ := ih h
      refine ⟨e', ?_, hj, ha⟩
      simp only [freeDrone, if_neg he]
      exact List.mem_cons_of_mem _ he'

theorem freeDrone_of_find?_none {ds : List Drone} {j : Nat}
    (h : ds.find? (fun d => d.id == j) = none) :
    freeDrone ds j = ds := by
  induction ds with
  | nil => rfl
  | cons e ds ih =>
    rw [List.find?_cons] at h
    by_cases he : (e.id == j) = true
    · simp [he] at h
    · simp only [freeDrone, if_neg he]
      rw [ih (by simpa [he] using h)]

/-! ### Shapes of a single engine step -/

theorem step_create_of_found {s : EngineState} {c f : String} {d : Drone}
    (hfa : findAvailable s.drones = some d) :
    step s (.create c f) =
      { s with
        drones := markFirstAvailableBusy s.drones
        orders := s.orders ++ [newOrderOf s c f d] } := by
  simp [step, createOrder, hfa]

theorem step_create_of_none {s : EngineState} {c f : String}
    (hfa : findAvailable s.drones = none) :
    step s (.create c f) = s := by
  simp [step, createOrder, hfa]

theorem step_update_of_found {s : EngineState} {i : Nat} {st : String} {o₀ : Order}
    (hfo : findOrder s.orders i = some o₀) :
    step s (.update i st) =
      { s with
        orders := replaceFirstOrder s.orders i (statusUpdatedOrder s o₀ st)
        drones :=
          if st == "entregado" then freeDrone s.drones o₀.droneId
          else s.drones } := by
  simp [step, updateOrderStatus, hfo]

theorem step_update_of_none {s : EngineState} {i : Nat} {st : String}
    (hfo : findOrder s.orders i = none) :
    step s (.update i st) = s := by
  simp [step, updateOrderStatus, hfo]

/-! ### Preservation of the strengthened invariant -/

theorem strongInv_create (s : EngineState) (c f : String) (hs : strongInv s) :
    strongInv (step s (.create c f)) := by
  obtain ⟨hbb, hdn, hbn⟩ := hs
  cases hfa : findAvailable s.drones with
  | none => rw [step_create_of_none hfa]; exact ⟨hbb, hdn, hbn⟩
  | some d =>
    have hdmem : d ∈ s.drones := List.mem_of_find?_eq_some hfa
    have hdav : d.available = true := by simpa using List.find?_some hfa
    rw [step_create_of_found hfa]
    have hnew_nt : isNonTerminal (newOrderOf s c f d) = true := by
      simp [isNonTerminal, newOrderOf]
    have hnew_id : (newOrderOf s c f d).droneId = d.id := rfl
    -- d's id is not bound by any existing non-terminal order
    have hfresh : d.id ∉ (s.orders.filter isNonTerminal).map (fun o => o.droneId) := by
      intro hmem
      obtain ⟨o, ho, hoid⟩ := List.mem_map.mp hmem
      obtain ⟨homem, hont⟩ := List.mem_filter.mp ho
      obtain ⟨d₀, hd₀mem, hd₀id, hd₀busy⟩ := hbb o homem hont
      have : d = d₀ := List.inj_on_of_nodup_map hdn hdmem hd₀mem (by rw [hd₀id, hoid])
      rw [this, hd₀busy] at hdav
      cases hdav
    refine ⟨?_, ?_, ?_⟩
    · -- boundBusy
      intro o homem hont
      rcases List.mem_append.mp homem with homem | homem
      · obtain ⟨d₀, hd₀mem, hd₀id, hd₀busy⟩ := hbb o homem hont
        exact ⟨d₀, markFirstAvailableBusy_mem_busy hd₀mem hd₀busy, hd₀id, hd₀busy⟩
      · obtain rfl : o = newOrderOf s c f d := by simpa using homem
        exact ⟨{ d with available := false }, markFirstAvailableBusy_found hfa,
          hnew_id.symm, rfl⟩
    · -- dronesNodup
      show (List.map _ (markFirstAvailableBusy s.drones)).Nodup
      rw [markFirstAvailableBusy_map_id]
      exact hdn
    · -- bindingNodup
      show (List.map _ ((s.orders ++ [newOrderOf s c f d]).filter isNonTerminal)).Nodup
      rw [List.filter_append]
      have : ([newOrderOf s c f d].filter isNonTerminal) = [newOrderOf s c f d] := by
        simp [hnew_nt]
      rw [this, List.map_append]
      have hsing : ([newOrderOf s c f d].map (fun o => o.droneId)) = [d.id] := rfl
      rw [hsing]
      refine List.Nodup.append hbn (List.nodup_singleton _) ?_
      intro x hx hx2
      obtain rfl : x = d.id := by simpa using hx2
      exact hfresh hx

theorem strongInv_update (s : EngineState) (i : Nat) (st : String)
    (hs : strongInv s) (hok : okOpB s (.update i st) = true) :
    strongInv (step s (.update i st)) := by
  obtain ⟨hbb, hdn, hbn⟩ := hs
  cases hfo : findOrder s.orders i with
  | none => rw [step_update_of_none hfo]; exact ⟨hbb, hdn, hbn⟩
  | some o₀ =>
    have hfo' : s.orders.find? (fun o => o.id == i) = some o₀ := hfo
    have ho₀mem : o₀ ∈ s.orders := List.mem_of_find?_eq_some hfo'
    have ho₀id : (o₀.id == i) = true := by simpa using List.find?_some hfo'
    have hall : ∀ o ∈ s.orders,
        (!(o.id == i) || !(o.status == "entregado")) = true := by
      simpa [okOpB, List.all_eq_true] using hok
    have ho₀nt : isNonTerminal o₀ = true := by
      have h2 := hall o₀ ho₀mem
      rw [ho₀id] at h2
      simpa [isNonTerminal, bne] using h2
    obtain ⟨l₁, l₂, horders, hl₁⟩ := find?_decomp _ _ _ hfo'
    have hrepl : replaceFirstOrder s.orders i (statusUpdatedOrder s o₀ st) =
        l₁ ++ statusUpdatedOrder s o₀ st :: l₂ := by
      rw [horders]
      exact replaceFirstOrder_append l₁ l₂ o₀ _ i hl₁ ho₀id
    have hfilter : s.orders.filter isNonTerminal =
        l₁.filter isNonTerminal ++ o₀ :: l₂.filter isNonTerminal := by
      rw [horders, List.filter_append, List.filter_cons, if_pos ho₀nt]
    have hbn' : ((l₁.filter isNonTerminal).map (fun o => o.droneId) ++
        o₀.droneId :: (l₂.filter isNonTerminal).map (fun o => o.droneId)).Nodup := by
      have := hbn
      rw [bindingNodup, hfilter] at this
      simpa using this
    have hmid := List.nodup_middle.mp hbn'
    have hnotin : o₀.droneId ∉ (l₁.filter isNonTerminal).map (fun o => o.droneId) ++
        (l₂.filter isNonTerminal).map (fun o => o.droneId) :=
      (List.nodup_cons.mp hmid).1
    have htail : ((l₁.filter isNonTerminal).map (fun o => o.droneId) ++
        (l₂.filter isNonTerminal).map (fun o => o.droneId)).Nodup :=
      (List.nodup_cons.mp hmid).2
    -- membership in l₁ or l₂ of a non-terminal order keeps it away from o₀'s drone
    have hside : ∀ o, (o ∈ l₁ ∨ o ∈ l₂) → isNonTerminal o = true →
        o.droneId ≠ o₀.droneId := by
      intro o ho hont heq
      apply hnotin
      rw [← heq]
      rcases ho with ho | ho
      · exact List.mem_append.mpr (Or.inl (List.mem_map.mpr
          ⟨o, List.mem_filter.mpr ⟨ho, hont⟩, rfl⟩))
      · exact List.mem_append.mpr (Or.inr (List.mem_map.mpr
          ⟨o, List.mem_filter.mpr ⟨ho, hont⟩, rfl⟩))
    have hsidemem : ∀ o, (o ∈ l₁ ∨ o ∈ l₂) → o ∈ s.orders := by
      intro o ho
      rw [horders]
      rcases ho with ho | ho
      · exact List.mem_append.mpr (Or.inl ho)
      · exact List.mem_append.mpr (Or.inr (List.mem_cons_of_mem _ ho))
    rw [step_update_of_found hfo]
    by_cases hst : (st == "entregado") = true
    · -- delivering: the order becomes terminal and its drone is freed
      have hst' : st = "entregado" := eq_of_beq hst
      have ho'_term : isNonTerminal (statusUpdatedOrder s o₀ st) = false := by
        simp [isNonTerminal, statusUpdatedOrder, hst']
      refine ⟨?_, ?_, ?_⟩
      · -- boundBusy
        intro o homem hont
        simp only [hrepl, if_pos hst] at homem ⊢
        have ho12 : o ∈ l₁ ∨ o ∈ l₂ := by
          rcases List.mem_append.mp homem with h | h
          · exact Or.inl h
          · rcases List.mem_cons.mp h with rfl | h
            · rw [hont] at ho'_term; cases ho'_term
            · exact Or.inr h
        obtain ⟨d₀, hd₀mem, hd₀id, hd₀busy⟩ := hbb o (hsidemem o ho12) hont
        refine ⟨d₀, ?_, hd₀id, hd₀busy⟩
        exact freeDrone_mem_of_ne hd₀mem (by rw [hd₀id]; exact hside o ho12 hont)
      · -- dronesNodup
        show (List.map _ (if (st == "entregado") = true then _ else _)).Nodup
        rw [if_pos hst, freeDrone_map_id]
        exact hdn
      · -- bindingNodup
        show (List.map _ ((replaceFirstOrder s.orders i _).filter isNonTerminal)).Nodup
        rw [hrepl, List.filter_append, List.filter_cons, if_neg (by simp [ho'_term]),
          List.map_append]
        exact htail
    · -- non-terminal target: drones untouched, the order stays non-terminal
      have ho'_nt : isNonTerminal (statusUpdatedOrder s o₀ st) = true := by
        simp only [isNonTerminal, statusUpdatedOrder, bne]
        simpa using hst
      have ho'_dr : (statusUpdatedOrder s o₀ st).droneId = o₀.droneId := rfl
      refine ⟨?_, ?_, ?_⟩
      · -- boundBusy
        intro o homem hont
        simp only [hrepl, if_neg hst] at homem ⊢
        rcases List.mem_append.mp homem with h | h
        · obtain ⟨d₀, hd₀mem, hd₀id, hd₀busy⟩ := hbb o (hsidemem o (Or.inl h)) hont
          exact ⟨d₀, hd₀mem, hd₀id, hd₀busy⟩
        · rcases List.mem_cons.mp h with rfl | h
          · obtain ⟨d₀, hd₀mem, hd₀id, hd₀busy⟩ := hbb o₀ ho₀mem ho₀nt
            exact ⟨d₀, hd₀mem, by rw [hd₀id]; exact ho'_dr.symm, hd₀busy⟩
          · obtain ⟨d₀, hd₀mem, hd₀id, hd₀busy⟩ := hbb o (hsidemem o (Or.inr h)) hont
            exact ⟨d₀, hd₀mem, hd₀id, hd₀busy⟩
      · -- dronesNodup
        show (List.map _ (if (st == "entregado") = true then _ else _)).Nodup
        rw [if_neg hst]
        exact hdn
      · -- bindingNodup
        show (List.map _ ((replaceFirstOrder s.orders i _).filter isNonTerminal)).Nodup
        rw [hrepl, List.filter_append, List.filter_cons, if_pos ho'_nt, List.map_append]
        simpa [ho'_dr] using hbn'

theorem strongInv_step (s : EngineState) (op : Op) (hs : strongInv s)
    (hok : okOpB s op = true) : strongInv (step s op) := by
  cases op with
  | create c f => exact strongInv_create s c f hs
  | update i st => exact strongInv_update s i st hs hok

theorem strongInv_run (s : EngineState) (ops : List Op) (hs : strongInv s)
    (h : okRunB s ops = true) : strongInv (run s ops) := by
  induction ops generalizing s with
  | nil => exact hs
  | cons op ops ih =>
    rw [okRunB, Bool.and_eq_true] at h
    obtain ⟨h1, h2⟩ := h
    exact ih (step s op) (strongInv_step s op hs h1) h2

theorem strongInv_engineInv (s : EngineState) (h : strongInv s) : engineInv s := by
  obtain ⟨hbb, hdn, hbn⟩ := h
  refine ⟨hbb, ?_⟩
  have hsub : ((s.orders.filter isNonTerminal).map (fun o => o.droneId)) ⊆
      s.drones.map (fun d => d.id) := by
    intro x hx
    obtain ⟨o, ho, rfl⟩ := List.mem_map.mp hx
    obtain ⟨homem, hont⟩ := List.mem_filter.mp ho
    obtain ⟨d, hd, hdi, _⟩ := hbb o homem hont
    exact List.mem_map.mpr ⟨d, hd, hdi⟩
  have hle := (List.subperm_of_subset hbn hsub).length_le
  simpa [capacityOK] using hle

theorem strongInv_seed : strongInv seedState := by decide

/-! ### Auxiliary facts for the ordering claims -/

theorem createOrder_ok_id {s : EngineState} {c f : String} {o : Order}
    {s' : EngineState} (h : createOrder s c f = .ok (o, s')) :
    o.id = s.orders.length + 1 ∧ s'.orders.length = s.orders.length + 1 := by
  cases hfa : findAvailable s.drones with
  | none =>
    simp only [createOrder, hfa] at h
    exact Except.noConfusion h
  | some d =>
    simp only [createOrder, hfa, Except.ok.injEq, Prod.mk.injEq] at h
    obtain ⟨h1, h2⟩ := h
    constructor
    · rw [← h1]; rfl
    · rw [← h2]; simp

theorem step_orders_length_le (s : EngineState) (op : Op) :
    s.orders.length ≤ (step s op).orders.length := by
  cases op with
  | create c f =>
    cases hfa : findAvailable s.drones with
    | none => rw [step_create_of_none hfa]
    | some d => rw [step_create_of_found hfa]; simp
  | update i st =>
    cases hfo : findOrder s.orders i with
    | none => rw [step_update_of_none hfo]
    | some o₀ => rw [step_update_of_found hfo]; simp [replaceFirstOrder_length]

theorem run_orders_length_le (s : EngineState) (ops : List Op) :
    s.orders.length ≤ (run s ops).orders.length := by
  induction ops generalizing s with
  | nil => exact le_rfl
  | cons op ops ih => exact le_trans (step_orders_length_le s op) (ih (step s op))

theorem step_drones_map_id (s : EngineState) (op : Op) :
    (step s op).drones.map (fun d => d.id) = s.drones.map (fun d => d.id) := by
  cases op with
  | create c f =>
    cases hfa : findAvailable s.drones with
    | none => rw [step_create_of_none hfa]
    | some d => rw [step_create_of_found hfa]; exact markFirstAvailableBusy_map_id _
  | update i st =>
    cases hfo : findOrder s.orders i with
    | none => rw [step_update_of_none hfo]
    | some o₀ =>
      rw [step_update_of_found hfo]
      by_cases hst : (st == "entregado") = true
      · show (List.map _ (if (st == "entregado") = true then _ else _)) = _
        rw [if_pos hst]; exact freeDrone_map_id _ _
      · show (List.map _ (if (st == "entregado") = true then _ else _)) = _
        rw [if_neg hst]

theorem run_drones_map_id (s : EngineState) (ops : List Op) :
    (run s ops).drones.map (fun d => d.id) = s.drones.map (fun d => d.id) := by
  induction ops generalizing s with
  | nil => rfl
  | cons op ops ih => exact (ih (step s op)).trans (step_drones_map_id s op)

theorem findAvailable_lowest {ds : List Drone} {d : Drone}
    (hsorted : (ds.map (fun d => d.id)).Pairwise (· < ·))
    (hfa : findAvailable ds = some d) :
    ∀ e ∈ ds, e.available = true → d.id ≤ e.id := by
  induction ds with
  | nil => simp [findAvailable] at hfa
  | cons a ds ih =>
    rw [List.map_cons, List.pairwise_cons] at hsorted
    obtain ⟨hhead, htail⟩ := hsorted
    by_cases ha : a.available = true
    · have had : a = d := by
        rw [findAvailable, List.find?_cons_of_pos _ ha] at hfa
        injection hfa
      subst had
      intro e he hav
      rcases List.mem_cons.mp he with rfl | he
      · exact le_rfl
      · exact le_of_lt (hhead e.id (List.mem_map.mpr ⟨e, he, rfl⟩))
    · have hfa' : findAvailable ds = some d := by
        rw [findAvailable, List.find?_cons_of_neg _ (by simpa using ha)] at hfa
        exact hfa
      intro e he hav
      rcases List.mem_cons.mp he with rfl | he
      · exact absurd hav ha
      · exact ih htail hfa' e he hav

/-! ### Concrete states reached from the seed, used by the witnesses -/

/-- The order `createOrder("Ana", "chocolate")` builds in the seed state. -/
def firstOrder : Order :=
  { id := 1, customer := "Ana", flavor := "chocolate", drone := "Droncito 1",
    droneId := 1, status := "preparando", createdAt := 0,
    estimatedDelivery := 900000, deliveredAt := none }

/-- The state after that first order was created. -/
def afterFirst : EngineState :=
  { drones :=
      [ { id := 1, name := "Droncito 1", available := false }
      , { id := 2, name := "PastelExpress", available := true }
      , { id := 3, name := "SweetFly", available := false } ]
    orders := [firstOrder]
    now := 0 }

/-- The order `createOrder("Luis", "vainilla")` builds in `afterFirst`. -/
def secondOrder : Order :=
  { id := 2, customer := "Luis", flavor := "vainilla", drone := "PastelExpress",
    droneId := 2, status := "preparando", createdAt := 0,
    estimatedDelivery := 900000, deliveredAt := none }

/-- The state after the second order was created: every drone is busy. -/
def afterSecond : EngineState :=
  { drones :=
      [ { id := 1, name := "Droncito 1", available := false }
      , { id := 2, name := "PastelExpress", available := false }
      , { id := 3, name := "SweetFly", available := false } ]
    orders := [firstOrder, secondOrder]
    now := 0 }

/-- `firstOrder` after it was delivered via `updateOrderStatus 1 "entregado"`. -/
def deliveredSeedOrder : Order :=
  { id := 1, customer := "Ana", flavor := "chocolate", drone := "Droncito 1",
    droneId := 1, status := "entregado", createdAt := 0,
    estimatedDelivery := 900000, deliveredAt := some 0 }

/-- The state reached from the seed by creating one order and delivering it. -/
def deliveredState : EngineState :=
  run seedState [Op.create "Ana" "chocolate", Op.update 1 "entregado"]

/-- An order whose bound drone id (99) matches no drone in the registry. -/
def ghostOrder : Order :=
  { id := 1, customer := "Eva", flavor := "fresa", drone := "Fantasma",
    droneId := 99, status := "preparando", createdAt := 0,
    estimatedDelivery := 900000, deliveredAt := none }

/-- A state holding `ghostOrder` over the seed registry. -/
def ghostState : EngineState :=
  { drones := seedDrones, orders := [ghostOrder], now := 0 }

/-! ### The claims -/

/-- Claim C1, counterexample: starting from the seed state, create an
order, deliver it, then let the scheduled `"en vuelo"` transition fire on
the already-delivered order (exactly what the 3-second timer does when
the order was completed early).  The resulting state has a non-terminal
order whose bound drone is available, so the claimed invariant fails. -/
theorem engineInv_violated_by_late_timer :
    ¬ engineInv (run seedState
      [Op.create "Ana" "chocolate", Op.update 1 "entregado",
       Op.update 1 "en vuelo"]) := by decide

/-- Claim C1 (amended): for every sequence of `createOrder` and
`completeOrder`/`updateOrderStatus` operations starting from the seed
state *in which no status update targets an already-delivered order*,
every non-terminal order is bound to a drone whose availability flag is
false, and the number of simultaneously non-terminal orders never
exceeds the number of drones.  (Without the restriction the code
violates the invariant, see `engineInv_violated_by_late_timer`.) -/
theorem engineInv_of_guarded_run (ops : List Op)
    (h : okRunB seedState ops = true) :
    engineInv (run seedState ops) :=
  strongInv_engineInv _ (strongInv_run seedState ops strongInv_seed h)

/-- Witness for `engineInv_of_guarded_run` on a concrete guarded history:
create, advance to in-flight, deliver, create again. -/
theorem engineInv_of_guarded_run_witness :
    engineInv (run seedState
      [Op.create "Ana" "chocolate", Op.update 1 "en vuelo",
       Op.update 1 "entregado", Op.create "Luis" "vainilla"]) :=
  engineInv_of_guarded_run
    [Op.create "Ana" "chocolate", Op.update 1 "en vuelo",
     Op.update 1 "entregado", Op.create "Luis" "vainilla"] (by decide)

/-- Claim C2, counterexample: in the state reached from the seed by
creating order 1 and delivering it, the scheduled
`updateOrderStatus(1, "en vuelo")` firing overwrites the terminal status
back to `"en vuelo"` — the code has no regression guard. -/
theorem delivered_overwritten_by_scheduled_transition :
    deliveredState.orders.map (fun o => o.status) = ["entregado"] ∧
    (updateOrderStatus deliveredState 1 "en vuelo").toOption.map
      (fun p => p.1.status) = some "en vuelo" :=
  ⟨rfl, rfl⟩

/-- Claim C2 (amended): `updateOrderStatus` applied to a delivered order
with a non-terminal target *does* overwrite the status with the target
(the state regresses), but it never re-marks any drone unavailable: the
drone registry is left completely unchanged, since availability is only
touched on the `"entregado"` branch. -/
theorem update_on_delivered_regresses_but_keeps_drones (s : EngineState)
    (i : Nat) (st : String) (o₀ : Order)
    (hfo : findOrder s.orders i = some o₀)
    (_hdel : o₀.status = "entregado") (hst : st ≠ "entregado") :
    ∃ o' s', updateOrderStatus s i st = .ok (o', s') ∧
      o'.status = st ∧ s'.drones = s.drones := by
  have hbeq : (st == "entregado") = false := beq_eq_false_iff_ne.mpr hst
  refine ⟨statusUpdatedOrder s o₀ st,
    { s with
      orders := replaceFirstOrder s.orders i (statusUpdatedOrder s o₀ st)
      drones := s.drones }, ?_, rfl, rfl⟩
  simp [updateOrderStatus, hfo, hbeq]

/-- Witness for `update_on_delivered_regresses_but_keeps_drones` at the
concrete delivered order of `deliveredState`. -/
theorem update_on_delivered_regresses_but_keeps_drones_witness :
    ∃ o' s', updateOrderStatus deliveredState 1 "en vuelo" = .ok (o', s') ∧
      o'.status = "en vuelo" ∧ s'.drones = deliveredState.drones :=
  update_on_delivered_regresses_but_keeps_drones deliveredState 1 "en vuelo"
    deliveredSeedOrder rfl rfl (by decide)

/-- Claim C3, counterexample: `updateOrderStatus` on order 1 with the
unrecognized status string `"no-such-status"` does not fail — it
succeeds and stores that string in the order record. -/
theorem invalid_status_accepted :
    (updateOrderStatus afterFirst 1 "no-such-status").toOption.map
      (fun p => p.1.status) = some "no-such-status" :=
  rfl

/-- Claim C3 (amended): `updateOrderStatus` performs no validation of
the status string.  For every existing order and *any* string — valid
state name or not — it succeeds and overwrites the order's status with
that string; there is no `InvalidStatus` error, and the record is
changed rather than left untouched. -/
theorem updateOrderStatus_accepts_any_status (s : EngineState) (i : Nat)
    (st : String) (o₀ : Order) (hfo : findOrder s.orders i = some o₀) :
    ∃ o' s', updateOrderStatus s i st = .ok (o', s') ∧ o'.status = st := by
  refine ⟨statusUpdatedOrder s o₀ st,
    { s with
      orders := replaceFirstOrder s.orders i (statusUpdatedOrder s o₀ st)
      drones :=
        if st == "entregado" then freeDrone s.drones o₀.droneId
        else s.drones }, ?_, rfl⟩
  simp [updateOrderStatus, hfo]

/-- Witness for `updateOrderStatus_accepts_any_status` on the concrete
state `afterFirst` and the nonsense status `"sabor"`. -/
theorem updateOrderStatus_accepts_any_status_witness :
    ∃ o' s', updateOrderStatus afterFirst 1 "sabor" = .ok (o', s') ∧
      o'.status = "sabor" :=
  updateOrderStatus_accepts_any_status afterFirst 1 "sabor" firstOrder rfl

/-- Claim C4, counterexample: `createOrder` with empty customer name and
empty flavor is not rejected — in the seed state it creates order 1
normally, storing the empty strings. -/
theorem empty_input_accepted :
    (createOrder seedState "" "").toOption.map
      (fun p => (p.1.customer, p.1.flavor, p.1.status)) =
      some ("", "", "preparando") :=
  rfl

/-- Claim C4 (amended): `createOrder` performs no input validation.
Whenever a drone is available it creates the order for *any* customer
and flavor strings, the empty string included, storing them verbatim;
its only failure mode is the no-drones capacity error. -/
theorem createOrder_no_input_validation (s : EngineState) (c f : String)
    (d : Drone) (hfa : findAvailable s.drones = some d) :
    ∃ o s', createOrder s c f = .ok (o, s') ∧ o.customer = c ∧
      o.flavor = f ∧ s'.orders = s.orders ++ [o] := by
  refine ⟨newOrderOf s c f d,
    { s with
      drones := markFirstAvailableBusy s.drones
      orders := s.orders ++ [newOrderOf s c f d] }, ?_, rfl, rfl, rfl⟩
  simp [createOrder, hfa]

/-- Witness for `createOrder_no_input_validation` with both inputs
empty, in the seed state. -/
theorem createOrder_no_input_validation_witness :
    ∃ o s', createOrder seedState "" "" = .ok (o, s') ∧ o.customer = "" ∧
      o.flavor = "" ∧ s'.orders = seedState.orders ++ [o] :=
  createOrder_no_input_validation seedState "" ""
    { id := 1, name := "Droncito 1", available := true } rfl

/-- Claim C5: when every drone's availability flag is false,
`createOrder` fails with the no-capacity error, and the failing step
leaves the whole state unchanged — no order appended, no flag touched. -/
theorem createOrder_noCapacity (s : EngineState) (c f : String)
    (h : ∀ d ∈ s.drones, d.available = false) :
    createOrder s c f = .error "No hay drones disponibles" ∧
      step s (.create c f) = s := by
  have hfa : findAvailable s.drones = none := by
    rw [findAvailable, List.find?_eq_none]
    intro d hd
    simp [h d hd]
  exact ⟨by simp [createOrder, hfa], step_create_of_none hfa⟩

/-- Witness for `createOrder_noCapacity` in the seed-reachable state
`afterSecond` where all three drones are busy. -/
theorem createOrder_noCapacity_witness :
    createOrder afterSecond "Eva" "fresa" = .error "No hay drones disponibles" ∧
      step afterSecond (.create "Eva" "fresa") = afterSecond :=
  createOrder_noCapacity afterSecond "Eva" "fresa" (by decide)

/-- Claim C6: for every existing order whose bound drone is present in
the registry, `completeOrder` succeeds, the returned order is
`"entregado"` with `deliveredAt` stamped, and the bound drone's
availability flag is true afterwards. -/
theorem completeOrder_delivers (s : EngineState) (i : Nat) (o₀ : Order)
    (hfo : findOrder s.orders i = some o₀)
    (hdr : (s.drones.find? (fun d => d.id == o₀.droneId)).isSome = true) :
    ∃ o' s', completeOrder s i = .ok (o', s') ∧
      o'.status = "entregado" ∧ o'.deliveredAt = some s.now ∧
      ∃ d ∈ s'.drones, d.id = o₀.droneId ∧ d.available = true := by
  obtain ⟨d₀, hd₀⟩ := Option.isSome_iff_exists.mp hdr
  refine ⟨statusUpdatedOrder s o₀ "entregado",
    { s with
      orders := replaceFirstOrder s.orders i (statusUpdatedOrder s o₀ "entregado")
      drones := freeDrone s.drones o₀.droneId }, ?_, rfl, ?_, ?_⟩
  · simp [completeOrder, updateOrderStatus, hfo]
  · simp [statusUpdatedOrder, hdr]
  · exact freeDrone_mem_found hd₀

/-- Witness for `completeOrder_delivers` on the concrete one-order state
`afterFirst`. -/
theorem completeOrder_delivers_witness :
    ∃ o' s', completeOrder afterFirst 1 = .ok (o', s') ∧
      o'.status = "entregado" ∧ o'.deliveredAt = some afterFirst.now ∧
      ∃ d ∈ s'.drones, d.id = firstOrder.droneId ∧ d.available = true :=
  completeOrder_delivers afterFirst 1 firstOrder rfl rfl

/-- Claim C7: order identifiers are strictly increasing across
successful `createOrder` calls: if one call succeeds yielding `o₁`, and
after any further operations a later call succeeds yielding `o₂`, then
`o₂`'s id is strictly greater (ids are `orders.length + 1`, and nothing
ever removes an order). -/
theorem createOrder_ids_strictly_increasing (s : EngineState)
    (ops : List Op) (c₁ f₁ c₂ f₂ : String) (o₁ o₂ : Order)
    (s₁ s₂ : EngineState)
    (h₁ : createOrder s c₁ f₁ = .ok (o₁, s₁))
    (h₂ : createOrder (run s₁ ops) c₂ f₂ = .ok (o₂, s₂)) :
    o₁.id < o₂.id := by
  obtain ⟨hid₁, hlen₁⟩ := createOrder_ok_id h₁
  obtain ⟨hid₂, _⟩ := createOrder_ok_id h₂
  have hmono := run_orders_length_le s₁ ops
  omega

/-- Witness for `createOrder_ids_strictly_increasing`: two consecutive
creations from the seed state yield ids 1 and 2. -/
theorem createOrder_ids_strictly_increasing_witness :
    firstOrder.id < secondOrder.id :=
  createOrder_ids_strictly_increasing seedState [] "Ana" "chocolate"
    "Luis" "vainilla" firstOrder secondOrder afterFirst afterSecond rfl rfl

/-- Claim C8: in every state reachable from the seed, a successful
`createOrder` binds the new order to an available drone whose identifier
is lowest among all available drones (the registry stays sorted by id,
and `find` scans in registry order).  Selection is a pure function of
the state, hence deterministic for a fixed operation sequence. -/
theorem createOrder_binds_lowest_available (ops : List Op) (c f : String)
    (o : Order) (s' : EngineState)
    (h : createOrder (run seedState ops) c f = .ok (o, s')) :
    (∃ d ∈ (run seedState ops).drones, d.available = true ∧ d.id = o.droneId) ∧
    (∀ d ∈ (run seedState ops).drones, d.available = true → o.droneId ≤ d.id) := by
  cases hfa : findAvailable (run seedState ops).drones with
  | none =>
    simp only [createOrder, hfa] at h
    exact Except.noConfusion h
  | some d =>
    have hsorted : ((run seedState ops).drones.map (fun d => d.id)).Pairwise (· < ·) := by
      rw [run_drones_map_id]
      decide
    have hdmem : d ∈ (run seedState ops).drones := List.mem_of_find?_eq_some hfa
    have hdav : d.available = true := by simpa using List.find?_some hfa
    have hdid : o.droneId = d.id := by
      simp only [createOrder, hfa, Except.ok.injEq, Prod.mk.injEq] at h
      rw [← h.1]
      rfl
    constructor
    · exact ⟨d, hdmem, hdav, hdid.symm⟩
    · intro e he hav
      rw [hdid]
      exact findAvailable_lowest hsorted hfa e he hav

/-- Witness for `createOrder_binds_lowest_available`: the very first
creation from the seed binds drone 1, the lowest-id available drone. -/
theorem createOrder_binds_lowest_available_witness :
    (∃ d ∈ (run seedState []).drones, d.available = true ∧ d.id = firstOrder.droneId) ∧
    (∀ d ∈ (run seedState []).drones, d.available = true → firstOrder.droneId ≤ d.id) :=
  createOrder_binds_lowest_available [] "Ana" "chocolate" firstOrder afterFirst rfl

/-- Claim C9: `completeOrder(orderId)` is definitionally the call
`updateOrderStatus(orderId, "entregado")`: identical result and
identical effect on every state. -/
theorem completeOrder_eq_updateDelivered (s : EngineState) (i : Nat) :
    completeOrder s i = updateOrderStatus s i "entregado" :=
  rfl

/-- Claim C10: delivering an existing order whose bound drone id matches
no registered drone still succeeds and sets the status to `"entregado"`,
but — because both the availability write and the `deliveredAt` stamp
sit inside the `if (drone)` guard — it leaves `deliveredAt` unchanged
and changes no drone's availability flag. -/
theorem update_delivered_unknown_drone (s : EngineState) (i : Nat)
    (o₀ : Order) (hfo : findOrder s.orders i = some o₀)
    (hdr : s.drones.find? (fun d => d.id == o₀.droneId) = none) :
    ∃ o' s', updateOrderStatus s i "entregado" = .ok (o', s') ∧
      o'.status = "entregado" ∧ o'.deliveredAt = o₀.deliveredAt ∧
      s'.drones = s.drones := by
  refine ⟨statusUpdatedOrder s o₀ "entregado",
    { s with
      orders := replaceFirstOrder s.orders i (statusUpdatedOrder s o₀ "entregado")
      drones := freeDrone s.drones o₀.droneId }, ?_, rfl, ?_, ?_⟩
  · simp [updateOrderStatus, hfo]
  · simp [statusUpdatedOrder, hdr]
  · exact freeDrone_of_find?_none hdr

/-- Witness for `update_delivered_unknown_drone` on `ghostState`, whose
single order is bound to the unregistered drone id 99. -/
theorem update_delivered_unknown_drone_witness :
    ∃ o' s', updateOrderStatus ghostState 1 "entregado" = .ok (o', s') ∧
      o'.status = "entregado" ∧ o'.deliveredAt = ghostOrder.deliveredAt ∧
      s'.drones = ghostState.drones :=
  update_delivered_unknown_drone ghostState 1 ghostOrder rfl rfl

end DronCakes
